import Mathlib

/-!
Verification of the Titanic survival-analysis script (`main.py`).

The embedding models the data-ingestion pipeline `load_data` (the nested
encoding/delimiter retry loops, the BOM/whitespace/lowercase column
normalization, the required-column check, and the fillna/astype value
coercions) and the two aggregations `pclass_survival` and `age_survival`
(including the `pd.cut` age bucketing with bins [0,12,18,35,60,100] and
`right=False`).

Cells are modelled as `Option ℚ` (a pandas cell is either a numeric value
or NaN/absent).  `pd.read_csv` is abstracted as a function from an
(encoding, delimiter) hypothesis to a parse outcome: the file may be
missing (`FileNotFoundError`), the parse may fail
(`UnicodeDecodeError`/`ParserError`/other exception), or it may produce a
table.
-/

/-- A parsed table: ordered named columns of optional numeric cells
(pandas DataFrame restricted to what the script reads). -/
structure Table where
  cols : List (String × List (Option ℚ))
deriving DecidableEq

/-- `df.shape[1]`: number of columns. -/
def Table.numCols (t : Table) : Nat := t.cols.length

/-- `df.shape[0]`: number of rows (length of the index, read off the first
column). -/
def Table.numRows (t : Table) : Nat :=
  match t.cols with
  | [] => 0
  | c :: _ => c.2.length

/-- `df.empty`: true iff either axis has length 0. -/
def Table.empty (t : Table) : Bool := t.numCols == 0 || t.numRows == 0

/-- `df[name]`: the first column labelled `name` (empty if absent). -/
def Table.col (t : Table) (name : String) : List (Option ℚ) :=
  match t.cols.find? (fun c => c.1 == name) with
  | some c => c.2
  | none => []

/-- In-place cell update of the column(s) labelled `name`
(models `df[name] = df[name].map f` style updates). -/
def Table.mapCells (t : Table) (name : String) (f : Option ℚ → Option ℚ) : Table :=
  ⟨t.cols.map (fun c => if c.1 == name then (c.1, c.2.map f) else c)⟩

/-- Outcome of one `pd.read_csv(file_path, encoding, sep)` attempt:
`notFound` models `FileNotFoundError`; `failed` models
`UnicodeDecodeError`/`ParserError`/any other exception (the script
continues the search on those); `ok t` is a successful parse. -/
inductive ParseOutcome where
  | notFound
  | failed
  | ok (t : Table)
deriving DecidableEq

/-- The failure surface of `load_data` (each case is a `st.error`
diagnostic followed by `return None` in the script). -/
inductive LoadError where
  | notFound
  | loadFailed
  | missingColumns (missing present : List String)
deriving DecidableEq

/-- `ENCODINGS = ['cp1252', 'latin-1', 'utf-8']`. -/
def ENCODINGS : List String := ["cp1252", "latin-1", "utf-8"]

/-- `DELIMITERS = [',', ';', '\t']`. -/
def DELIMITERS : List String := [",", ";", "\t"]

/-- `df.shape[1] >= 10 and not df.empty`: the acceptance condition checked
right after a successful parse. -/
def acceptTable (t : Table) : Bool := decide (10 ≤ t.numCols) && !t.empty

/-- `df is not None and df.shape[1] >= 10 and not df.empty`: the condition
of the outer-loop break. -/
def acceptOpt (df : Option Table) : Bool :=
  match df with
  | some t => acceptTable t
  | none => false

/-- Result of the inner (delimiter) loop: the file was missing (the script
returns at once), the loop broke on an accepted table, or it ran out of
delimiters with `df` holding the last successful parse (if any). -/
inductive InnerRes where
  | fileMissing
  | found (t : Table)
  | ranOut (df : Option Table)
deriving DecidableEq

/-- The inner `for delimiter in DELIMITERS` loop of `load_data`, carrying
the mutable `df` variable. -/
def tryDelims (read : String → String → ParseOutcome) (enc : String) :
    List String → Option Table → InnerRes
  | [], df => .ranOut df
  | d :: rest, df =>
    match read enc d with
    | .notFound => .fileMissing
    | .failed => tryDelims read enc rest df
    | .ok t => if acceptTable t then .found t else tryDelims read enc rest (some t)

/-- Result of the outer (encoding) loop. -/
inductive OuterRes where
  | fileMissing
  | done (df : Option Table)
deriving DecidableEq

/-- The outer `for encoding in ENCODINGS` loop of `load_data`, including
the outer break `if df is not None and df.shape[1] >= 10 and not df.empty`. -/
def tryEncodings (read : String → String → ParseOutcome) :
    List String → Option Table → OuterRes
  | [], df => .done df
  | e :: rest, df =>
    match tryDelims read e DELIMITERS df with
    | .fileMissing => .fileMissing
    | .found t => .done (some t)
    | .ranOut df' => if acceptOpt df' then .done df' else tryEncodings read rest df'

/-- The `(encoding, delimiter)` pairs on which `read` is actually invoked
by the inner loop (mirrors `tryDelims`). -/
def triedDelims (read : String → String → ParseOutcome) (enc : String) :
    List String → List (String × String)
  | [] => []
  | d :: rest =>
    (enc, d) ::
      (match read enc d with
       | .notFound => []
       | .failed => triedDelims read enc rest
       | .ok t => if acceptTable t then [] else triedDelims read enc rest)

/-- The `(encoding, delimiter)` pairs on which `read` is actually invoked
by the nested loops (mirrors `tryEncodings`). -/
def triedEncodings (read : String → String → ParseOutcome) :
    List String → Option Table → List (String × String)
  | [], _ => []
  | e :: rest, df =>
    triedDelims read e DELIMITERS ++
      (match tryDelims read e DELIMITERS df with
       | .fileMissing => []
       | .found _ => []
       | .ranOut df' => if acceptOpt df' then [] else triedEncodings read rest df')

/-- All hypotheses attempted by `load_data` for a given `read`. -/
def hypothesesTried (read : String → String → ParseOutcome) : List (String × String) :=
  triedEncodings read ENCODINGS none

/-- The full hypothesis space in the nested search order
(outer: encoding, inner: delimiter). -/
def hypotheses : List (String × String) :=
  ENCODINGS.flatMap (fun e => DELIMITERS.map (fun d => (e, d)))

/-- A hypothesis is accepted iff its parse succeeds and the parsed table
satisfies the acceptance condition. -/
def acceptedHyp (read : String → String → ParseOutcome) (h : String × String) : Bool :=
  match read h.1 h.2 with
  | .ok t => acceptTable t
  | _ => false

/-- Removes every occurrence of the BOM artifact `ï»¿` from a character
list (models `df.columns.str.replace('ï»¿', '', regex=False)`). -/
def removeBOMAux : List Char → List Char
  | [] => []
  | 'ï' :: '»' :: '¿' :: rest => removeBOMAux rest
  | c :: rest => c :: removeBOMAux rest

/-- Python `str.strip()` whitespace characters. -/
def isSpaceChar (c : Char) : Bool :=
  c == ' ' || c == '\t' || c == '\n' || c == '\r' || c == '\x0b' || c == '\x0c'

/-- Python `str.strip()` on a character list. -/
def trimChars (l : List Char) : List Char :=
  ((l.dropWhile isSpaceChar).reverse.dropWhile isSpaceChar).reverse

/-- Python `str.lower()` on an ASCII character. -/
def lowerChar (c : Char) : Char :=
  if 'A' ≤ c ∧ c ≤ 'Z' then Char.ofNat (c.toNat + 32) else c

/-- Column-name normalization: BOM strip, then `col.strip().lower()`. -/
def normalizeName (s : String) : String :=
  String.mk ((trimChars (removeBOMAux s.data)).map lowerChar)

/-- The keys of `required_cols = {'pclass': 'Pclass', 'survived': 'Survived',
'age': 'Age'}`, in dict insertion order. -/
def requiredCols : List String := ["pclass", "survived", "age"]

/-- The `rename_map` built from `required_cols` (all three present). -/
def renameName (s : String) : String :=
  if s = "pclass" then "Pclass"
  else if s = "survived" then "Survived"
  else if s = "age" then "Age"
  else s

/-- `int(x)` / `.astype(int)`: truncation toward zero. -/
def truncQ (q : ℚ) : ℤ := q.num.tdiv (q.den : ℤ)

/-- The non-NaN values of a column, in order (what pandas skips over NaN). -/
def presentVals (l : List (Option ℚ)) : List ℚ := l.filterMap id

/-- `Series.median()`: sort the present values; middle element (odd count)
or mean of the two middle elements (even count); NaN (`none`) when there
are no present values. -/
def median (l : List ℚ) : Option ℚ :=
  let s := l.insertionSort (· ≤ ·)
  if s.length = 0 then none
  else if s.length % 2 = 1 then some (s.getD (s.length / 2) 0)
  else some ((s.getD (s.length / 2 - 1) 0 + s.getD (s.length / 2) 0) / 2)

/-- `Series.fillna(m)` cell-wise, where `m` may itself be NaN (in which
case `fillna` changes nothing). -/
def ageFill (m : Option ℚ) (c : Option ℚ) : Option ℚ :=
  match m with
  | none => c
  | some mv => some (c.getD mv)

/-- The column names of the table after BOM strip and strip/lowercase
(what `df.columns.tolist()` shows at the missing-column diagnostic). -/
def normNames (t : Table) : List String :=
  (t.cols.map (fun c => (normalizeName c.1, c.2))).map (fun c => c.1)

/-- `missing_cols`: the required lowercase names absent from the
normalized column set, in `required_cols` iteration order. -/
def missingOf (t : Table) : List String :=
  requiredCols.filter (fun n => !((normNames t).contains n))

/-- The preprocessing of `load_data` after a table has been accepted:
BOM strip + strip/lowercase of column names, required-column check with
diagnostics, rename, `Age` median imputation, `Survived` fillna(0)+int,
`Pclass` fillna(3)+int. -/
def preprocess (t : Table) : Except LoadError Table :=
  let t1 : Table := ⟨t.cols.map (fun c => (normalizeName c.1, c.2))⟩
  let names : List String := normNames t
  let missing : List String := missingOf t
  match missing with
  | _ :: _ => .error (.missingColumns missing names)
  | [] =>
    let t2 : Table := ⟨t1.cols.map (fun c => (renameName c.1, c.2))⟩
    let t3 := t2.mapCells "Age" (ageFill (median (presentVals (t2.col "Age"))))
    let t4 := t3.mapCells "Survived" (fun c => some ((truncQ (c.getD 0) : ℚ)))
    let t5 := t4.mapCells "Pclass" (fun c => some ((truncQ (c.getD 3) : ℚ)))
    .ok t5

/-- `load_data`: the nested hypothesis search, the post-loop
`if df is None or df.empty` check, and the preprocessing. -/
def load_data (read : String → String → ParseOutcome) : Except LoadError Table :=
  match tryEncodings read ENCODINGS none with
  | .fileMissing => .error .notFound
  | .done none => .error .loadFailed
  | .done (some t) => if t.empty then .error .loadFailed else preprocess t

/-- A normalized record: one row restricted to the three analysis
columns (cells may still be NaN, hence `Option`). -/
structure Record where
  pclass : Option ℚ
  survived : Option ℚ
  age : Option ℚ
deriving DecidableEq

/-- The rows of a processed table, viewed through the three analysis
columns. -/
def records (t : Table) : List Record :=
  ((t.col "Pclass").zip ((t.col "Survived").zip (t.col "Age"))).map
    (fun x => ⟨x.1, x.2.1, x.2.2⟩)

/-- `groupby(...)['Survived'].agg('sum')` on a partition: the sum of the
survived values (NaN skipped). -/
def survSum (rs : List Record) : ℚ := (rs.map (fun r => r.survived.getD 0)).sum

/-- `data.groupby('Pclass')['Survived'].agg(['sum','count'])` plus the
rate column: one row `(class, survivors, total, 100·survivors/total)` per
distinct present class value, in ascending class order (pandas groupby
sorts its keys); rows with NaN key are dropped. -/
def pclass_survival (rs : List Record) : List (ℚ × ℚ × ℕ × ℚ) :=
  ((rs.filterMap Record.pclass).dedup.insertionSort (· ≤ ·)).map (fun k =>
    let part := rs.filter (fun r => decide (r.pclass = some k))
    (k, survSum part, part.length, survSum part / (part.length : ℚ) * 100))

/-- `labels = ['Child (0-11)', ..., 'Senior (60+)']`. -/
def labels : List String :=
  ["Child (0-11)", "Teen (12-17)", "Young Adult (18-34)", "Adult (35-59)", "Senior (60+)"]

/-- `pd.cut(age, bins=[0, 12, 18, 35, 60, 100], labels=labels,
right=False, include_lowest=True)`: half-open intervals
[0,12), [12,18), [18,35), [35,60), [60,100); values outside every bin
(negative, or ≥ 100) get NaN. -/
def ageGroup (a : ℚ) : Option String :=
  if 0 ≤ a ∧ a < 12 then some "Child (0-11)"
  else if 12 ≤ a ∧ a < 18 then some "Teen (12-17)"
  else if 18 ≤ a ∧ a < 35 then some "Young Adult (18-34)"
  else if 35 ≤ a ∧ a < 60 then some "Adult (35-59)"
  else if 60 ≤ a ∧ a < 100 then some "Senior (60+)"
  else none

/-- The `AgeGroup` key of a record (NaN age gives NaN key). -/
def recBucket (r : Record) : Option String := r.age.bind ageGroup

/-- `data.groupby('AgeGroup', observed=True)['Survived'].agg(['sum','count'])`
plus the rate column: one row per observed bucket, in categorical
(bucket-definition) order; rows with NaN key are dropped. -/
def age_survival (rs : List Record) : List (String × ℚ × ℕ × ℚ) :=
  labels.filterMap (fun L =>
    let part := rs.filter (fun r => decide (recBucket r = some L))
    match part with
    | [] => none
    | _ :: _ => some (L, survSum part, part.length, survSum part / (part.length : ℚ) * 100))

/-- A generic 10-column, schema-complete input table with the given
`pclass`, `survived` and `age` columns (seven filler columns make the
table pass the `shape[1] >= 10` acceptance test; the first column gives
it one row so it is not `empty`). -/
def mkTable (p s a : List (Option ℚ)) : Table :=
  ⟨[("id", [some 0]), ("pclass", p), ("survived", s), ("age", a),
    ("c5", [some 0]), ("c6", [some 0]), ("c7", [some 0]), ("c8", [some 0]),
    ("c9", [some 0]), ("c10", [some 0])]⟩

/-- The table `load_data` produces from `mkTable p s a`: `Pclass` is
fillna(3)+int, `Survived` is fillna(0)+int, `Age` is median-imputed from
the present values of `a`. -/
def loadedTable (p s a : List (Option ℚ)) : Table :=
  ⟨[("id", [some 0]),
    ("Pclass", p.map (fun c => some ((truncQ (c.getD 3) : ℚ)))),
    ("Survived", s.map (fun c => some ((truncQ (c.getD 0) : ℚ)))),
    ("Age", a.map (ageFill (median (presentVals a)))),
    ("c5", [some 0]), ("c6", [some 0]), ("c7", [some 0]), ("c8", [some 0]),
    ("c9", [some 0]), ("c10", [some 0])]⟩

/-- A 3-column table (e.g. a genuinely tab-separated file with only the
three analysis columns): every hypothesis parses it, none is accepted
(3 < 10 columns), yet it is non-empty and schema-complete. -/
def T3 : Table := ⟨[("pclass", [some 1]), ("survived", [some 1]), ("age", [some 20])]⟩

/-- A reader for which every (encoding, delimiter) hypothesis parses to
the 3-column table `T3`. -/
def read3 : String → String → ParseOutcome := fun _ _ => .ok T3

/-- What `load_data` makes of `T3`. -/
def T3proc : Table :=
  ⟨[("Pclass", [some 1]), ("Survived", [some 1]), ("Age", [some 20])]⟩

/-- A 10-column, one-row table whose header has no `pclass` variant. -/
def Tmiss : Table :=
  ⟨[("name", [some 0]), ("survived", [some 1]), ("age", [some 20]),
    ("c4", [some 0]), ("c5", [some 0]), ("c6", [some 0]), ("c7", [some 0]),
    ("c8", [some 0]), ("c9", [some 0]), ("c10", [some 0])]⟩

/-- The record set of the C9 aggregation example. -/
def c9recs : List Record :=
  [⟨some 1, some 1, none⟩, ⟨some 1, some 0, none⟩, ⟨some 3, some 1, none⟩]

/-- A reader whose first hypothesis fails to parse and whose second
hypothesis parses to an accepted table. -/
def readSecond : String → String → ParseOutcome := fun e d =>
  if e = "cp1252" ∧ d = ";" then .ok (mkTable [some 1] [some 1] [some 20])
  else .failed

/-- Invariant of the search state: the held table, if any, is empty. -/
def emptyInv (df : Option Table) : Prop :=
  df = none ∨ ∃ t, df = some t ∧ t.empty = true

/-- `load_data` on `mkTable` always succeeds and produces `loadedTable`
(the read is uniform in the hypothesis, as for a plain comma-separated
file that decodes under every encoding). -/
theorem load_mkTable (p s a : List (Option ℚ)) :
    load_data (fun _ _ => .ok (mkTable p s a)) = .ok (loadedTable p s a) := rfl

/-- C5: the age-bucket boundaries are half-open [lower, upper): each of
the boundary ages 12, 18, 35, 60 maps to the upper bucket, while the ages
just below them stay in the lower bucket. -/
theorem c5_boundary_ages_map_to_upper_bucket :
    ageGroup 12 = some "Teen (12-17)" ∧
    ageGroup 18 = some "Young Adult (18-34)" ∧
    ageGroup 35 = some "Adult (35-59)" ∧
    ageGroup 60 = some "Senior (60+)" ∧
    ageGroup 11 = some "Child (0-11)" ∧
    ageGroup 17 = some "Teen (12-17)" ∧
    ageGroup 34 = some "Young Adult (18-34)" ∧
    ageGroup 59 = some "Adult (35-59)" := by decide

/-- C2 is false as stated: the bins of `pd.cut` stop at 100, so an age of
100 or more is assigned no bucket at all (NaN), not the Senior bucket. -/
theorem c2_cex_age_100_gets_no_bucket :
    ageGroup 100 = none ∧ ageGroup 150 = none ∧
    ¬ ageGroup 100 = some "Senior (60+)" := by decide

/-- C2 (amended): the age-bucket derivation is total over [0, 100): every
such age gets exactly one of the five labels, and ages in [60, 100) get
Senior; but ages ≥ 100 fall outside the last bin and get no bucket. -/
theorem c2_amended_bucket_totality (x : ℚ) (h0 : 0 ≤ x) :
    (x < 100 → ∃ L, L ∈ labels ∧ ageGroup x = some L) ∧
    (100 ≤ x → ageGroup x = none) ∧
    (60 ≤ x → x < 100 → ageGroup x = some "Senior (60+)") := by
  refine ⟨fun hlt => ?_, fun hge => ?_, fun h60 hlt => ?_⟩
  · unfold ageGroup
    split_ifs with h1 h2 h3 h4 h5
    · exact ⟨"Child (0-11)", by decide, rfl⟩
    · exact ⟨"Teen (12-17)", by decide, rfl⟩
    · exact ⟨"Young Adult (18-34)", by decide, rfl⟩
    · exact ⟨"Adult (35-59)", by decide, rfl⟩
    · exact ⟨"Senior (60+)", by decide, rfl⟩
    · exfalso
      push_neg at h1 h2 h3 h4 h5
      have t1 := h1 h0
      have t2 := h2 (by linarith)
      have t3 := h3 (by linarith)
      have t4 := h4 (by linarith)
      have t5 := h5 (by linarith)
      linarith
  · unfold ageGroup
    split_ifs with h1 h2 h3 h4 h5
    · exact absurd h1.2 (by linarith)
    · exact absurd h2.2 (by linarith)
    · exact absurd h3.2 (by linarith)
    · exact absurd h4.2 (by linarith)
    · exact absurd h5.2 (by linarith)
    · rfl
  · unfold ageGroup
    split_ifs with h1 h2 h3 h4 h5
    · exact absurd h1.2 (by linarith)
    · exact absurd h2.2 (by linarith)
    · exact absurd h3.2 (by linarith)
    · exact absurd h4.2 (by linarith)
    · rfl
    · exact absurd ⟨h60, hlt⟩ h5

/-- Witness for the amended C2 at the concrete age 70. -/
theorem c2_amended_bucket_totality_witness :
    ageGroup 70 = some "Senior (60+)" :=
  (c2_amended_bucket_totality 70 (by norm_num)).2.2 (by norm_num) (by norm_num)

/-- C9: on the record set [(class 1, survived), (class 1, died),
(class 3, survived)] the cabin-class aggregation yields class 1 with 1
survivor of 2 (rate 50) and class 3 with 1 survivor of 1 (rate 100), in
ascending class order. -/
theorem c9_pclass_aggregation_example :
    pclass_survival c9recs = [(1, 1, 2, 50), (3, 1, 1, 100)] := by
  norm_num [pclass_survival, c9recs, survSum, List.insertionSort,
    List.orderedInsert, List.dedup, List.pwFilter, List.filter]

/-- C1 is false as stated: with a reader that parses every hypothesis to
the non-empty 3-column table `T3`, no hypothesis satisfies the acceptance
condition, yet `load_data` does not fail — the post-loop check only
rejects a `None` or empty table, so the last parsed table proceeds
through normalization and a record set is returned. -/
theorem c1_cex_exhausted_but_succeeds :
    hypotheses.all (fun h => !acceptedHyp read3 h) = true ∧
    load_data read3 = .ok T3proc ∧
    (records T3proc).length = 1 := by
  refine ⟨by decide, rfl, by decide⟩

/-- C4: for any age column whose present values have median `m`, every
absent age cell of the loaded table is substituted by `m` — the median of
the values present *before* any substitution, computed once over the
whole column — and every present value is kept unchanged. -/
theorem c4_median_imputation (a : List (Option ℚ)) (m : ℚ)
    (hm : median (presentVals a) = some m) :
    ∃ t, load_data (fun _ _ => .ok (mkTable [some 1] [some 0] a)) = .ok t ∧
      t.col "Age" = a.map (fun c => some (c.getD m)) := by
  refine ⟨loadedTable [some 1] [some 0] a, load_mkTable _ _ _, ?_⟩
  have h : (loadedTable [some 1] [some 0] a).col "Age" =
      a.map (ageFill (median (presentVals a))) := rfl
  rw [h, hm]
  rfl

/-- Witness for C4 at the spec's example: age column [20, NaN, 40, NaN]
has median 30 and both missing entries become 30. -/
theorem c4_median_imputation_witness :
    median (presentVals [some 20, none, some 40, none]) = some 30 ∧
    ∃ t, load_data (fun _ _ =>
        .ok (mkTable [some 1] [some 0] [some 20, none, some 40, none])) = .ok t ∧
      t.col "Age" = [some 20, some 30, some 40, some 30] := by
  have hm : median (presentVals [some 20, none, some 40, none]) = some 30 := by
    norm_num [median, presentVals, List.insertionSort, List.orderedInsert]
  refine ⟨hm, ?_⟩
  obtain ⟨t, h1, h2⟩ := c4_median_imputation [some 20, none, some 40, none] 30 hm
  exact ⟨t, h1, by rw [h2]; rfl⟩

/-- C6: if, after column normalization, any of `pclass`, `survived`,
`age` is absent, `load_data` fails with a diagnostic carrying the missing
logical names and the full list of column names actually present; no
record set is returned. -/
theorem c6_missing_columns (T : Table) (hacc : acceptTable T = true)
    (hmiss : missingOf T ≠ []) :
    load_data (fun _ _ => .ok T) =
      .error (.missingColumns (missingOf T) (normNames T)) := by
  have hne : T.empty = false := by
    have h := hacc
    simp only [acceptTable, Bool.and_eq_true, Bool.not_eq_true'] at h
    exact h.2
  have hload : tryEncodings (fun _ _ => .ok T) ENCODINGS none = .done (some T) := by
    simp [tryEncodings, tryDelims, DELIMITERS, ENCODINGS, hacc]
  rcases hmv : missingOf T with _ | ⟨x, xs⟩
  · exact absurd hmv hmiss
  · simp [load_data, hload, hne, preprocess, hmv]

/-- Witness for C6: a 10-column table with no `pclass` column is rejected
with the missing name and the actual header. -/
theorem c6_missing_columns_witness :
    load_data (fun _ _ => .ok Tmiss) =
      .error (.missingColumns ["pclass"]
        ["name", "survived", "age", "c4", "c5", "c6", "c7", "c8", "c9", "c10"]) := by
  have h := c6_missing_columns Tmiss (by decide) (by decide)
  rw [h]; rfl

/-- C7: if the file does not exist (`read` raises not-found on the very
first hypothesis), `load_data` fails immediately with the not-found error
and only that one hypothesis is attempted. -/
theorem c7_not_found_immediate (read : String → String → ParseOutcome)
    (h : read "cp1252" "," = .notFound) :
    load_data read = .error .notFound ∧
    hypothesesTried read = [("cp1252", ",")] := by
  constructor
  · simp [load_data, tryEncodings, ENCODINGS, DELIMITERS, tryDelims, h]
  · simp [hypothesesTried, triedEncodings, ENCODINGS, DELIMITERS, triedDelims, tryDelims, h]

/-- Witness for C7: a reader for which every attempt raises not-found. -/
theorem c7_not_found_immediate_witness :
    load_data (fun _ _ => .notFound) = .error .notFound ∧
    hypothesesTried (fun _ _ => .notFound) = [("cp1252", ",")] :=
  c7_not_found_immediate _ rfl

/-- If every successful parse yields an empty table, the inner loop
either reports a missing file or ends with an empty-or-absent `df`. -/
theorem tryDelims_empty_inv (read : String → String → ParseOutcome)
    (h : ∀ e d t, read e d = .ok t → t.empty = true) (enc : String)
    (ds : List String) :
    ∀ df, emptyInv df →
      tryDelims read enc ds df = .fileMissing ∨
      ∃ df', tryDelims read enc ds df = .ranOut df' ∧ emptyInv df' := by
  induction ds with
  | nil => intro df hdf; exact Or.inr ⟨df, rfl, hdf⟩
  | cons d rest ih =>
    intro df hdf
    cases hr : read enc d with
    | notFound => left; simp [tryDelims, hr]
    | failed => simpa [tryDelims, hr] using ih df hdf
    | ok t =>
      have hte : t.empty = true := h _ _ _ hr
      have hat : acceptTable t = false := by
        simp [acceptTable, hte]
      simpa [tryDelims, hr, hat] using ih (some t) (Or.inr ⟨t, rfl, hte⟩)

/-- If every successful parse yields an empty table, the whole nested
search either reports a missing file or ends with an empty-or-absent
`df`. -/
theorem tryEncodings_empty_inv (read : String → String → ParseOutcome)
    (h : ∀ e d t, read e d = .ok t → t.empty = true) (es : List String) :
    ∀ df, emptyInv df →
      tryEncodings read es df = .fileMissing ∨
      ∃ df', tryEncodings read es df = .done df' ∧ emptyInv df' := by
  induction es with
  | nil => intro df hdf; exact Or.inr ⟨df, rfl, hdf⟩
  | cons e rest ih =>
    intro df hdf
    rcases tryDelims_empty_inv read h e DELIMITERS df hdf with hfm | ⟨df', hdf', hinv⟩
    · left; simp [tryEncodings, hfm]
    · have hao : acceptOpt df' = false := by
        rcases hinv with rfl | ⟨t, rfl, hte⟩
        · rfl
        · simp [acceptOpt, acceptTable, hte]
      simpa [tryEncodings, hdf', hao] using ih df' hinv

/-- C1 (amended): if no hypothesis ever parses to a non-empty table, the
exhausted search makes `load_data` fail with an error result.  (As the
counterexample shows, exhaustion alone is not enough: a non-empty parse
with fewer than 10 columns survives the post-loop `df is None or
df.empty` check and proceeds into normalization.) -/
theorem c1_amended_exhausted_fails (read : String → String → ParseOutcome)
    (h : ∀ e d t, read e d = .ok t → t.empty = true) :
    ∃ err, load_data read = .error err := by
  rcases tryEncodings_empty_inv read h ENCODINGS none (Or.inl rfl) with hfm | ⟨df', hdf', hinv⟩
  · exact ⟨.notFound, by simp [load_data, hfm]⟩
  · rcases hinv with rfl | ⟨t, rfl, hte⟩
    · exact ⟨.loadFailed, by simp [load_data, hdf']⟩
    · exact ⟨.loadFailed, by simp [load_data, hdf', hte]⟩

/-- Witness for the amended C1: a reader for which every parse fails. -/
theorem c1_amended_exhausted_fails_witness :
    ∃ err, load_data (fun _ _ => .failed) = .error err :=
  c1_amended_exhausted_fails _ (fun e d t hc => by cases hc)

/-- Truncation of an integer-valued rational is the integer itself. -/
theorem truncQ_intCast (n : ℤ) : truncQ ((n : ℚ)) = n := by
  simp [truncQ, Rat.num_intCast, Rat.den_intCast, Int.tdiv_one]

theorem truncQ_zero : truncQ 0 = 0 := by decide

theorem truncQ_one : truncQ 1 = 1 := by decide

theorem truncQ_two : truncQ 2 = 2 := by decide

theorem truncQ_three : truncQ 3 = 3 := by decide

/-- The median of a list of non-negative rationals, when defined, is
non-negative. -/
theorem median_nonneg (l : List ℚ) (hl : ∀ x ∈ l, 0 ≤ x) (m : ℚ)
    (hm : median l = some m) : 0 ≤ m := by
  unfold median at hm
  set s := l.insertionSort (· ≤ ·) with hs
  have hmem : ∀ x ∈ s, 0 ≤ x := fun x hx =>
    hl x ((List.perm_insertionSort _ l).subset hx)
  by_cases h0 : s.length = 0
  · simp [h0] at hm
  · by_cases h1 : s.length % 2 = 1
    · simp only [h0, h1, if_true, if_false, ite_true, ite_false, if_neg, if_pos,
        Option.some_inj] at hm
      have hlt : s.length / 2 < s.length :=
        Nat.div_lt_self (Nat.pos_of_ne_zero h0) one_lt_two
      rw [List.getD_eq_getElem s 0 hlt] at hm
      exact hm ▸ hmem _ (List.getElem_mem hlt)
    · have h2 : 2 ≤ s.length := by omega
      have hlt2 : s.length / 2 < s.length :=
        Nat.div_lt_self (Nat.pos_of_ne_zero h0) one_lt_two
      have hlt1 : s.length / 2 - 1 < s.length := by omega
      simp only [h0, h1, if_true, if_false, ite_true, ite_false, if_neg, if_pos,
        Option.some_inj] at hm
      rw [List.getD_eq_getElem s 0 hlt1, List.getD_eq_getElem s 0 hlt2] at hm
      have n1 := hmem _ (List.getElem_mem hlt1)
      have n2 := hmem _ (List.getElem_mem hlt2)
      rw [← hm]
      positivity

/-- C3 is false as stated: present out-of-range values pass through the
coercions unmodified — a dataset with a survived cell equal to 2 is
accepted by `load_data` and yields a record with `survived = 2`, outside
{0, 1}. -/
theorem c3_cex_survived_passthrough :
    ∃ t, load_data (fun _ _ => .ok (mkTable [some 1] [some 2] [some 20])) = .ok t ∧
      ∃ r, r ∈ records t ∧ r.survived = some 2 ∧
        ¬(r.survived = some 0 ∨ r.survived = some 1) := by
  refine ⟨loadedTable [some 1] [some 2] [some 20], load_mkTable _ _ _,
    ⟨⟨some 1, some 2, some 20⟩, by decide, rfl, by decide⟩⟩

/-- C3 (amended): the defaults applied to missing cells (class 3,
survived 0, median age) all lie in the claimed ranges, so whenever the
*present* input values already satisfy pclass ∈ {1,2,3}, survived ∈
{0,1}, age ≥ 0, every record of the loaded dataset satisfies
cabinClass ∈ {1,2,3}, survived ∈ {0,1} and every present age ≥ 0; for
arbitrary inputs the invariant can fail, since present values are passed
through unmodified. -/
theorem c3_amended_invariant (p s a : List (Option ℚ))
    (hp : ∀ c ∈ p, ∀ v : ℚ, c = some v → v = 1 ∨ v = 2 ∨ v = 3)
    (hs : ∀ c ∈ s, ∀ v : ℚ, c = some v → v = 0 ∨ v = 1)
    (ha : ∀ c ∈ a, ∀ v : ℚ, c = some v → 0 ≤ v) :
    ∃ t, load_data (fun _ _ => .ok (mkTable p s a)) = .ok t ∧
      ∀ r ∈ records t,
        (r.pclass = some 1 ∨ r.pclass = some 2 ∨ r.pclass = some 3) ∧
        (r.survived = some 0 ∨ r.survived = some 1) ∧
        (∀ v : ℚ, r.age = some v → 0 ≤ v) := by
  refine ⟨loadedTable p s a, load_mkTable _ _ _, ?_⟩
  intro r hr
  have hrec : records (loadedTable p s a) =
      ((p.map (fun c => some ((truncQ (c.getD 3) : ℚ)))).zip
        ((s.map (fun c => some ((truncQ (c.getD 0) : ℚ)))).zip
          (a.map (ageFill (median (presentVals a)))))).map
        (fun x => ⟨x.1, x.2.1, x.2.2⟩) := rfl
  rw [hrec] at hr
  obtain ⟨⟨x1, x2, x3⟩, hx, rfl⟩ := List.mem_map.mp hr
  obtain ⟨hx1, hx23⟩ := List.of_mem_zip hx
  obtain ⟨hx2, hx3⟩ := List.of_mem_zip hx23
  refine ⟨?_, ?_, ?_⟩
  · obtain ⟨c, hc, rfl⟩ := List.mem_map.mp hx1
    rcases c with _ | v
    · right; right
      show some ((truncQ ((Option.getD none 3 : ℚ)) : ℚ)) = some 3
      norm_num [Option.getD, truncQ_zero, truncQ_one, truncQ_two, truncQ_three]
    · obtain hv | hv | hv := hp _ hc v rfl <;> subst hv
      · left
        show some ((truncQ ((Option.getD (some 1) 3 : ℚ)) : ℚ)) = some 1
        norm_num [Option.getD, truncQ_zero, truncQ_one, truncQ_two, truncQ_three]
      · right; left
        show some ((truncQ ((Option.getD (some 2) 3 : ℚ)) : ℚ)) = some 2
        norm_num [Option.getD, truncQ_zero, truncQ_one, truncQ_two, truncQ_three]
      · right; right
        show some ((truncQ ((Option.getD (some 3) 3 : ℚ)) : ℚ)) = some 3
        norm_num [Option.getD, truncQ_zero, truncQ_one, truncQ_two, truncQ_three]
  · obtain ⟨c, hc, rfl⟩ := List.mem_map.mp hx2
    rcases c with _ | v
    · left
      show some ((truncQ ((Option.getD none 0 : ℚ)) : ℚ)) = some 0
      norm_num [Option.getD, truncQ_zero, truncQ_one, truncQ_two, truncQ_three]
    · obtain hv | hv := hs _ hc v rfl <;> subst hv
      · left
        show some ((truncQ ((Option.getD (some 0) 0 : ℚ)) : ℚ)) = some 0
        norm_num [Option.getD, truncQ_zero, truncQ_one, truncQ_two, truncQ_three]
      · right
        show some ((truncQ ((Option.getD (some 1) 0 : ℚ)) : ℚ)) = some 1
        norm_num [Option.getD, truncQ_zero, truncQ_one, truncQ_two, truncQ_three]
  · intro v hv
    obtain ⟨c, hc, hcx⟩ := List.mem_map.mp hx3
    have hpres : ∀ x ∈ presentVals a, 0 ≤ x := by
      intro x hx
      obtain ⟨cc, hcc, hccx⟩ := List.mem_filterMap.mp hx
      exact ha cc hcc x hccx
    rcases hmed : median (presentVals a) with _ | mv
    · rw [hmed] at hcx
      simp only [ageFill] at hcx
      subst hcx
      exact ha c hc v hv
    · rw [hmed] at hcx
      simp only [ageFill] at hcx
      subst hcx
      have hmv : 0 ≤ mv := median_nonneg _ hpres _ hmed
      rcases c with _ | w
      · simp only [Option.getD] at hv
        injection hv with hv
        subst hv
        exact hmv
      · have hw : 0 ≤ w := ha _ hc w rfl
        simp only [Option.getD] at hv
        injection hv with hv
        subst hv
        exact hw

/-- Witness for the amended C3 at a small concrete dataset with missing
cells in every column. -/
theorem c3_amended_invariant_witness :
    ∃ t, load_data (fun _ _ =>
        .ok (mkTable [some 1, none] [some 0, none] [some 20, none])) = .ok t ∧
      ∀ r ∈ records t,
        (r.pclass = some 1 ∨ r.pclass = some 2 ∨ r.pclass = some 3) ∧
        (r.survived = some 0 ∨ r.survived = some 1) ∧
        (∀ v : ℚ, r.age = some v → 0 ≤ v) :=
  c3_amended_invariant [some 1, none] [some 0, none] [some 20, none]
    (by
      intro c hc v hv
      simp only [List.mem_cons, List.not_mem_nil, or_false] at hc
      rcases hc with rfl | rfl
      · injection hv with hv; exact Or.inl hv.symm
      · cases hv)
    (by
      intro c hc v hv
      simp only [List.mem_cons, List.not_mem_nil, or_false] at hc
      rcases hc with rfl | rfl
      · injection hv with hv; exact Or.inl hv.symm
      · cases hv)
    (by
      intro c hc v hv
      simp only [List.mem_cons, List.not_mem_nil, or_false] at hc
      rcases hc with rfl | rfl
      · injection hv with hv; subst hv; norm_num
      · cases hv)

/-- The age field of any record is a cell of the `Age` column. -/
theorem age_mem_of_mem_records (t : Table) (r : Record) (hr : r ∈ records t) :
    r.age ∈ t.col "Age" := by
  unfold records at hr
  obtain ⟨⟨x1, x2, x3⟩, hx, rfl⟩ := List.mem_map.mp hr
  exact (List.of_mem_zip (List.of_mem_zip hx).2).2

/-- The class field of any record is a cell of the `Pclass` column. -/
theorem pclass_mem_of_mem_records (t : Table) (r : Record) (hr : r ∈ records t) :
    r.pclass ∈ t.col "Pclass" := by
  unfold records at hr
  obtain ⟨⟨x1, x2, x3⟩, hx, rfl⟩ := List.mem_map.mp hr
  exact (List.of_mem_zip hx).1

/-- When every record has a present class, the partition size for key `k`
equals the multiplicity of `k` among the class values. -/
theorem count_filter_pclass (rs : List Record) (k : ℚ)
    (h : ∀ r ∈ rs, r.pclass.isSome) :
    (rs.filter (fun r => decide (r.pclass = some k))).length =
      (rs.filterMap Record.pclass).count k := by
  induction rs with
  | nil => simp
  | cons r rest ih =>
    obtain ⟨v, hv⟩ := Option.isSome_iff_exists.mp (h r (List.mem_cons_self _ _))
    have ihh := ih (fun x hx => h x (List.mem_cons_of_mem _ hx))
    simp only [List.filter_cons, List.filterMap_cons, hv, List.count_cons]
    by_cases hvk : v = k
    · subst hvk
      simp [ihh]
    · simp [hvk, ihh, Option.some_inj]

/-- When every record has a present class, no class value is dropped. -/
theorem filterMap_pclass_length (rs : List Record)
    (h : ∀ r ∈ rs, r.pclass.isSome) :
    (rs.filterMap Record.pclass).length = rs.length := by
  induction rs with
  | nil => rfl
  | cons r rest ih =>
    obtain ⟨v, hv⟩ := Option.isSome_iff_exists.mp (h r (List.mem_cons_self _ _))
    simp [List.filterMap_cons, hv, ih (fun x hx => h x (List.mem_cons_of_mem _ hx))]

/-- When every record has a present class, the `Total` column of the
cabin-class summary sums to the number of records: every record is
counted in exactly one summary row. -/
theorem pclass_total_sum (rs : List Record)
    (h : ∀ r ∈ rs, r.pclass.isSome) :
    ((pclass_survival rs).map (fun row => row.2.2.1)).sum = rs.length := by
  unfold pclass_survival
  rw [List.map_map]
  have h1 : ∀ k ∈ ((rs.filterMap Record.pclass).dedup.insertionSort (· ≤ ·)),
      ((fun row : ℚ × ℚ × ℕ × ℚ => row.2.2.1) ∘ (fun k =>
        (k, survSum (rs.filter (fun r => decide (r.pclass = some k))),
          (rs.filter (fun r => decide (r.pclass = some k))).length,
          survSum (rs.filter (fun r => decide (r.pclass = some k))) /
            (((rs.filter (fun r => decide (r.pclass = some k))).length : ℚ)) * 100))) k =
      (fun x => (rs.filterMap Record.pclass).count x) k := by
    intro k _
    exact count_filter_pclass rs k h
  rw [List.map_congr_left h1]
  rw [((List.perm_insertionSort (· ≤ ·) (rs.filterMap Record.pclass).dedup).map _).sum_eq]
  rw [List.sum_map_count_dedup_eq_length]
  exact filterMap_pclass_length rs h

/-- Records that fall in no age bucket contribute nothing to the
age-group summary. -/
theorem age_survival_nil_of_no_bucket (rs : List Record)
    (h : ∀ r ∈ rs, recBucket r = none) :
    age_survival rs = [] := by
  unfold age_survival
  apply List.filterMap_eq_nil_iff.mpr
  intro L hL
  have hfil : rs.filter (fun r => decide (recBucket r = some L)) = [] := by
    apply List.filter_eq_nil_iff.mpr
    intro r hr
    simp [h r hr]
  simp [hfil]

/-- C10: when every age is absent, `load_data` still succeeds — the
median of no values is NaN, so `fillna` changes nothing and every age
stays absent — and all such records are excluded from the age-bucket
summary (it is empty) while the cabin-class summary still counts every
record in its `Total` column. -/
theorem c10_all_ages_missing (p s : List (Option ℚ)) (n : ℕ) :
    ∃ t, load_data (fun _ _ => .ok (mkTable p s (List.replicate n none))) = .ok t ∧
      (∀ r ∈ records t, r.age = none) ∧
      age_survival (records t) = [] ∧
      ((pclass_survival (records t)).map (fun row => row.2.2.1)).sum =
        (records t).length := by
  refine ⟨loadedTable p s (List.replicate n none), load_mkTable _ _ _, ?_⟩
  have hmed : median (presentVals (List.replicate n (none : Option ℚ))) = none := by
    have hp : presentVals (List.replicate n (none : Option ℚ)) = [] := by
      induction n with
      | zero => rfl
      | succ k ih => simp [List.replicate_succ, presentVals, List.filterMap_cons, ih]
    rw [hp]
    rfl
  have hAcol : (loadedTable p s (List.replicate n none)).col "Age" =
      List.replicate n (none : Option ℚ) := by
    have h1 : (loadedTable p s (List.replicate n none)).col "Age" =
        (List.replicate n (none : Option ℚ)).map
          (ageFill (median (presentVals (List.replicate n (none : Option ℚ))))) := rfl
    rw [h1, hmed]
    have h2 : ∀ c ∈ List.replicate n (none : Option ℚ), ageFill none c = c :=
      fun c _ => rfl
    rw [List.map_congr_left h2]
    simp
  have hage : ∀ r ∈ records (loadedTable p s (List.replicate n none)), r.age = none := by
    intro r hr
    have hm := age_mem_of_mem_records _ _ hr
    rw [hAcol] at hm
    exact List.eq_of_mem_replicate hm
  refine ⟨hage, ?_, ?_⟩
  · apply age_survival_nil_of_no_bucket
    intro r hr
    simp [recBucket, hage r hr]
  · apply pclass_total_sum
    intro r hr
    have hm := pclass_mem_of_mem_records _ _ hr
    have hPcol : (loadedTable p s (List.replicate n none)).col "Pclass" =
        p.map (fun c => some ((truncQ (c.getD 3) : ℚ))) := rfl
    rw [hPcol] at hm
    obtain ⟨c, hc, hcx⟩ := List.mem_map.mp hm
    rw [← hcx]
    rfl

/-- Inner-loop characterization when no delimiter under `enc` is
accepted: the loop runs out, the carried `df` stays unaccepted, and every
delimiter is attempted. -/
theorem tryDelims_none_found (read : String → String → ParseOutcome) (enc : String)
    (ds : List String)
    (hnf : ∀ d ∈ ds, read enc d ≠ .notFound)
    (hall : ∀ d ∈ ds, acceptedHyp read (enc, d) = false) :
    (∀ df, acceptOpt df = false →
      ∃ df', tryDelims read enc ds df = .ranOut df' ∧ acceptOpt df' = false) ∧
    triedDelims read enc ds = ds.map (fun d => (enc, d)) := by
  induction ds with
  | nil => exact ⟨fun df hdf => ⟨df, rfl, hdf⟩, rfl⟩
  | cons d rest ih =>
    have hnf' : ∀ x ∈ rest, read enc x ≠ .notFound :=
      fun x hx => hnf x (List.mem_cons_of_mem _ hx)
    have hall' : ∀ x ∈ rest, acceptedHyp read (enc, x) = false :=
      fun x hx => hall x (List.mem_cons_of_mem _ hx)
    have ihh := ih hnf' hall'
    have hdnf := hnf d (List.mem_cons_self _ _)
    have hdacc := hall d (List.mem_cons_self _ _)
    constructor
    · intro df hdf
      cases hr : read enc d with
      | notFound => exact absurd hr hdnf
      | failed => simpa [tryDelims, hr] using ihh.1 df hdf
      | ok t =>
        have hat : acceptTable t = false := by simpa [acceptedHyp, hr] using hdacc
        simpa [tryDelims, hr, hat] using ihh.1 (some t) (by simp [acceptOpt, hat])
    · cases hr : read enc d with
      | notFound => exact absurd hr hdnf
      | failed => simp [triedDelims, hr, ihh.2]
      | ok t =>
        have hat : acceptTable t = false := by simpa [acceptedHyp, hr] using hdacc
        simp [triedDelims, hr, hat, ihh.2]

/-- Inner-loop characterization when some delimiter under `enc` is
accepted: the loop breaks on the first accepted delimiter, regardless of
the carried `df`, and exactly the prefix of delimiters up to it is
attempted. -/
theorem tryDelims_found (read : String → String → ParseOutcome) (enc : String)
    (ds : List String) (d₀ : String)
    (hnf : ∀ d ∈ ds, read enc d ≠ .notFound)
    (hfind : ds.find? (fun d => acceptedHyp read (enc, d)) = some d₀) :
    ∃ t₀, read enc d₀ = .ok t₀ ∧ acceptTable t₀ = true ∧
      (∀ df, tryDelims read enc ds df = .found t₀) ∧
      triedDelims read enc ds =
        (ds.takeWhile (fun d => !acceptedHyp read (enc, d))).map (fun d => (enc, d))
          ++ [(enc, d₀)] := by
  induction ds with
  | nil => cases hfind
  | cons d rest ih =>
    have hdnf := hnf d (List.mem_cons_self _ _)
    cases hacc : acceptedHyp read (enc, d) with
    | true =>
      have hd₀ : d₀ = d := by
        rw [List.find?_cons] at hfind
        simp only [hacc] at hfind
        exact (Option.some_inj.mp hfind).symm
      subst hd₀
      cases hr : read enc d₀ with
      | notFound => exact absurd hr hdnf
      | failed => simp [acceptedHyp, hr] at hacc
      | ok t =>
        have hat : acceptTable t = true := by simpa [acceptedHyp, hr] using hacc
        refine ⟨t, rfl, hat, fun df => by simp [tryDelims, hr, hat], ?_⟩
        simp [triedDelims, hr, hat, List.takeWhile_cons, hacc]
    | false =>
      have hfind' : rest.find? (fun d => acceptedHyp read (enc, d)) = some d₀ := by
        rw [List.find?_cons] at hfind
        simpa only [hacc] using hfind
      have hnf' : ∀ x ∈ rest, read enc x ≠ .notFound :=
        fun x hx => hnf x (List.mem_cons_of_mem _ hx)
      obtain ⟨t₀, h1, h2, h3, h4⟩ := ih hnf' hfind'
      refine ⟨t₀, h1, h2, ?_, ?_⟩
      · intro df
        cases hr : read enc d with
        | notFound => exact absurd hr hdnf
        | failed => simp [tryDelims, hr, h3 df]
        | ok t =>
          have hat : acceptTable t = false := by simpa [acceptedHyp, hr] using hacc
          simp [tryDelims, hr, hat, h3 (some t)]
      · cases hr : read enc d with
        | notFound => exact absurd hr hdnf
        | failed => simp [triedDelims, hr, h4, List.takeWhile_cons, hacc]
        | ok t =>
          have hat : acceptTable t = false := by simpa [acceptedHyp, hr] using hacc
          simp [triedDelims, hr, hat, h4, List.takeWhile_cons, hacc]

/-- Nested-loop characterization: when the file never goes missing and
the flattened nested-order hypothesis list has a first accepted
hypothesis, the search returns its table and attempts exactly the
hypotheses up to and including it. -/
theorem tryEncodings_found (read : String → String → ParseOutcome)
    (hnf : ∀ e d, read e d ≠ .notFound) (es : List String) :
    ∀ (h₀ : String × String),
      (es.flatMap (fun e => DELIMITERS.map (fun d => (e, d)))).find?
        (acceptedHyp read) = some h₀ →
      ∀ df, acceptOpt df = false →
        ∃ t₀, read h₀.1 h₀.2 = .ok t₀ ∧ acceptTable t₀ = true ∧
          tryEncodings read es df = .done (some t₀) ∧
          triedEncodings read es df =
            ((es.flatMap (fun e => DELIMITERS.map (fun d => (e, d)))).takeWhile
              (fun h => !acceptedHyp read h)) ++ [h₀] := by
  induction es with
  | nil => intro h₀ hfind; cases hfind
  | cons e rest ih =>
    intro h₀ hfind df hdf
    rw [List.flatMap_cons, List.find?_append] at hfind
    have hnfd : ∀ d ∈ DELIMITERS, read e d ≠ .notFound := fun d _ => hnf e d
    cases hb : (DELIMITERS.map (fun d => (e, d))).find? (acceptedHyp read) with
    | some hb₀ =>
      rw [hb] at hfind
      have hb₀h₀ : hb₀ = h₀ := by simpa [Option.or] using hfind
      rw [List.find?_map] at hb
      obtain ⟨d₀, hd₀, hmap⟩ := Option.map_eq_some'.mp hb
      obtain ⟨t₀, h1, h2, h3, h4⟩ := tryDelims_found read e DELIMITERS d₀ hnfd hd₀
      have hh₀ : h₀ = (e, d₀) := by rw [← hb₀h₀, ← hmap]
      subst hh₀
      refine ⟨t₀, h1, h2, ?_, ?_⟩
      · simp [tryEncodings, h3 df]
      · have hmem : (e, d₀) ∈ DELIMITERS.map (fun d => (e, d)) :=
          List.mem_map_of_mem _ (List.mem_of_find?_eq_some hd₀)
        have hq : (!acceptedHyp read (e, d₀)) = false := by
          have hps := List.find?_some hd₀
          simp only [Bool.not_eq_false']
          simpa using hps
        have hlen : ((DELIMITERS.map (fun d => (e, d))).takeWhile
            (fun h => !acceptedHyp read h)).length ≠
            (DELIMITERS.map (fun d => (e, d))).length := by
          intro hl
          have heq := (List.takeWhile_prefix
            (l := DELIMITERS.map (fun d => (e, d)))
            (fun h => !acceptedHyp read h)).eq_of_length hl
          have hmm := List.takeWhile_eq_self_iff.mp heq (e, d₀) hmem
          rw [hq] at hmm
          cases hmm
        rw [List.flatMap_cons, List.takeWhile_append, if_neg hlen]
        rw [List.takeWhile_map]
        simp only [triedEncodings, h3 df, h4]
        simp only [Function.comp_def, List.append_nil]
    | none =>
      rw [hb] at hfind
      have hfind' : (rest.flatMap (fun e => DELIMITERS.map (fun d => (e, d)))).find?
          (acceptedHyp read) = some h₀ := by simpa [Option.or] using hfind
      have hall : ∀ d ∈ DELIMITERS, acceptedHyp read (e, d) = false := by
        intro d hd
        have hn := List.find?_eq_none.mp hb (e, d) (List.mem_map_of_mem _ hd)
        exact Bool.not_eq_true _ ▸ (by simpa using hn)
      obtain ⟨hrun, htried⟩ := tryDelims_none_found read e DELIMITERS hnfd hall
      obtain ⟨df', hdf', hdf'acc⟩ := hrun df hdf
      obtain ⟨t₀, h1, h2, h3, h4⟩ := ih h₀ hfind' df' hdf'acc
      refine ⟨t₀, h1, h2, ?_, ?_⟩
      · simp [tryEncodings, hdf', hdf'acc, h3]
      · have hq : ∀ h ∈ DELIMITERS.map (fun d => (e, d)),
            (fun h => !acceptedHyp read h) h = true := by
          intro h hh
          obtain ⟨d, hd, rfl⟩ := List.mem_map.mp hh
          simp [hall d hd]
        have hlen : ((DELIMITERS.map (fun d => (e, d))).takeWhile
            (fun h => !acceptedHyp read h)).length =
            (DELIMITERS.map (fun d => (e, d))).length := by
          rw [List.takeWhile_eq_self_iff.mpr hq]
        rw [List.flatMap_cons, List.takeWhile_append, if_pos hlen]
        simp only [triedEncodings, hdf', hdf'acc, if_neg, h4, htried]
        simp [List.append_assoc]

/-- C8: hypotheses are tried in the fixed nested order (encodings outer,
delimiters inner) and the first one that parses and passes the
acceptance test (≥ 10 columns, ≥ 1 row) wins: its table is the one that
proceeds to preprocessing, and exactly the hypotheses up to and
including the winner are attempted — all remaining ones are skipped.
Determinism is inherent: the selection is a function of `read`. -/
theorem c8_first_accepted_hypothesis (read : String → String → ParseOutcome)
    (hnf : ∀ e d, read e d ≠ .notFound) (h₀ : String × String)
    (hfind : hypotheses.find? (acceptedHyp read) = some h₀) :
    ∃ t₀, read h₀.1 h₀.2 = .ok t₀ ∧ acceptTable t₀ = true ∧
      load_data read = preprocess t₀ ∧
      hypothesesTried read =
        hypotheses.takeWhile (fun h => !acceptedHyp read h) ++ [h₀] := by
  obtain ⟨t₀, h1, h2, h3, h4⟩ :=
    tryEncodings_found read hnf ENCODINGS h₀ hfind none rfl
  have hne : t₀.empty = false := by
    have h := h2
    simp only [acceptTable, Bool.and_eq_true, Bool.not_eq_true'] at h
    exact h.2
  refine ⟨t₀, h1, h2, ?_, h4⟩
  simp [load_data, h3, hne]

/-- Witness for C8: a reader whose first hypothesis parse fails and whose
second is accepted selects the second and attempts exactly the first
two hypotheses. -/
theorem c8_first_accepted_hypothesis_witness :
    ∃ t₀, readSecond "cp1252" ";" = .ok t₀ ∧ acceptTable t₀ = true ∧
      load_data readSecond = preprocess t₀ ∧
      hypothesesTried readSecond = [("cp1252", ","), ("cp1252", ";")] := by
  have hnf : ∀ e d, readSecond e d ≠ .notFound := by
    intro e d
    by_cases hc : e = "cp1252" ∧ d = ";" <;> simp [readSecond, hc]
  have hfind : hypotheses.find? (acceptedHyp readSecond) = some ("cp1252", ";") := by
    decide
  obtain ⟨t₀, h1, h2, h3, h4⟩ := c8_first_accepted_hypothesis readSecond hnf _ hfind
  refine ⟨t₀, h1, h2, h3, ?_⟩
  rw [h4]
  decide
